import Mathlib

/-!
# Verification of the `ahrs-rs` orientation filters

Shallow embedding of the two AHRS filters of the repository
(`src/madgwick.rs`, `src/mahony.rs`) over the real numbers: the Rust code is
generic over a `RealField` scalar, so every arithmetic operation is modelled
by the corresponding exact operation on `ℝ`.

nalgebra conventions used throughout the translation:
* `Quaternion` stores its coordinates as `[i, j, k, w]`, so the Rust
  indexing `q[0], q[1], q[2], q[3]` reads the components `i, j, k, w`;
  `Quaternion::new(w, i, j, k)` takes the scalar part first.
* `try_normalize(min_norm)` returns `None` when `norm ≤ min_norm` and
  otherwise divides by the norm.
* `UnitQuaternion::from_quaternion` and `Quaternion::normalize` divide the
  quaternion by its norm.
-/

noncomputable section

open scoped BigOperators

/-- A 3-component real vector, modelling nalgebra's `Vector3<N>`. -/
structure V3 where
  x : ℝ
  y : ℝ
  z : ℝ

instance : Zero V3 := ⟨⟨0, 0, 0⟩⟩

instance : Add V3 := ⟨fun a b => ⟨a.x + b.x, a.y + b.y, a.z + b.z⟩⟩

/-- Vector-times-scalar, modelling nalgebra's `Vector3<N> * N`. -/
def V3.smul (v : V3) (c : ℝ) : V3 := ⟨v.x * c, v.y * c, v.z * c⟩

/-- 3D cross product, as in nalgebra's `Vector3::cross`. -/
def V3.cross (a b : V3) : V3 :=
  ⟨a.y * b.z - a.z * b.y, a.z * b.x - a.x * b.z, a.x * b.y - a.y * b.x⟩

/-- Squared Euclidean norm of a `Vector3`. -/
def V3.normSq (v : V3) : ℝ := v.x ^ 2 + v.y ^ 2 + v.z ^ 2

/-- Euclidean norm of a `Vector3` (`Matrix::norm` in nalgebra). -/
def V3.norm (v : V3) : ℝ := Real.sqrt v.normSq

/-- nalgebra's `Matrix::try_normalize(min_norm)`: `None` when
`norm ≤ min_norm`, otherwise the vector divided by its norm. -/
def V3.tryNormalize (v : V3) (minNorm : ℝ) : Option V3 :=
  if v.norm ≤ minNorm then none else some (v.smul v.norm⁻¹)

/-- Euclidean norm of a `Fin n`-indexed real vector (nalgebra `Vector4` /
`Vector6` norms, used for the gradient step). -/
def vecNorm {n : ℕ} (v : Fin n → ℝ) : ℝ := Real.sqrt (∑ t, v t ^ 2)

/-- A real quaternion, modelling nalgebra's `Quaternion<N>`; `w` is the
scalar part, `i j k` the vector part (`q[0] = i`, `q[1] = j`, `q[2] = k`,
`q[3] = w` under nalgebra's coordinate indexing). -/
structure Quat where
  w : ℝ
  i : ℝ
  j : ℝ
  k : ℝ

instance : Zero Quat := ⟨⟨0, 0, 0, 0⟩⟩

instance : Add Quat :=
  ⟨fun p r => ⟨p.w + r.w, p.i + r.i, p.j + r.j, p.k + r.k⟩⟩

instance : Sub Quat :=
  ⟨fun p r => ⟨p.w - r.w, p.i - r.i, p.j - r.j, p.k - r.k⟩⟩

/-- Hamilton product, as implemented by nalgebra's `Quaternion` `Mul`. -/
instance : Mul Quat :=
  ⟨fun p r =>
    ⟨p.w * r.w - p.i * r.i - p.j * r.j - p.k * r.k,
     p.w * r.i + p.i * r.w + p.j * r.k - p.k * r.j,
     p.w * r.j - p.i * r.k + p.j * r.w + p.k * r.i,
     p.w * r.k + p.i * r.j - p.j * r.i + p.k * r.w⟩⟩

/-- Quaternion-times-scalar, modelling nalgebra's `Quaternion<N> * N`. -/
def Quat.smul (p : Quat) (c : ℝ) : Quat := ⟨p.w * c, p.i * c, p.j * c, p.k * c⟩

/-- `Quaternion::from_parts(scalar, vector)`. -/
def Quat.fromParts (s : ℝ) (v : V3) : Quat := ⟨s, v.x, v.y, v.z⟩

/-- Quaternion conjugation. -/
def Quat.conj (p : Quat) : Quat := ⟨p.w, -p.i, -p.j, -p.k⟩

/-- Squared norm of a quaternion (sum of squares of its 4 coordinates). -/
def Quat.normSq (p : Quat) : ℝ := p.w ^ 2 + p.i ^ 2 + p.j ^ 2 + p.k ^ 2

/-- Norm of a quaternion. -/
def Quat.norm (p : Quat) : ℝ := Real.sqrt p.normSq

/-- `Quaternion::normalize` / `UnitQuaternion::from_quaternion`: division of
the quaternion by its norm. -/
def Quat.normalize (p : Quat) : Quat := p.smul p.norm⁻¹

/-- Modelled from the spec: the error type of the `Ahrs` trait (its
declaration lives in the crate's `ahrs` module, which is not present in the
sources; only uses of its variants appear). §6–§7 of the spec name the
variants `AccelerometerNormZero` and `MagnetometerNormZero`; `mahony.rs`
additionally references a `DivByZero` variant, so it is included. -/
inductive AhrsError where
  | AccelerometerNormZero
  | MagnetometerNormZero
  | DivByZero
deriving DecidableEq

/-- The Madgwick filter state (`src/madgwick.rs`). The stored quaternion is
wrapped in `UnitQuaternion` in Rust; its raw coordinates are modelled here. -/
structure Madgwick where
  sample_period : ℝ
  beta : ℝ
  delta : ℝ
  quat : Quat

/-- The Mahony filter state (`src/mahony.rs`); `quat` is a plain
`Quaternion` there (not a `UnitQuaternion`). -/
structure Mahony where
  sample_period : ℝ
  kp : ℝ
  ki : ℝ
  e_int : V3
  quat : Quat

/-- Reference direction of Earth's magnetic field, from `madgwick.rs`
(`update`, lines 207–209): `h = q * (Quaternion::from_parts(0, mag) *
q.conjugate())`, `b = Quaternion::new(0, Vector2::new(h[0], h[1]).norm(), 0,
h[2])`. -/
def Madgwick.refB (q : Quat) (mag : V3) : Quat :=
  let h := q * (Quat.fromParts 0 mag * q.conj)
  ⟨0, Real.sqrt (h.i ^ 2 + h.j ^ 2), 0, h.k⟩

/-- The 6-component residual `F` of `Madgwick::update` (madgwick.rs
lines 212–220), with `accel`/`mag` the already-normalized measurements. -/
def Madgwick.F9 (q b : Quat) (accel mag : V3) : Fin 6 → ℝ :=
  ![2 * (q.i * q.k - q.w * q.j) - accel.x,
    2 * (q.w * q.i + q.j * q.k) - accel.y,
    2 * (0.5 - q.i * q.i - q.j * q.j) - accel.z,
    2 * b.i * (0.5 - q.j * q.j - q.k * q.k) + 2 * b.k * (q.i * q.k - q.w * q.j) - mag.x,
    2 * b.i * (q.i * q.j - q.w * q.k) + 2 * b.k * (q.w * q.i + q.j * q.k) - mag.y,
    2 * b.i * (q.w * q.j + q.i * q.k) + 2 * b.k * (0.5 - q.i * q.i - q.j * q.j) - mag.z]

/-- The transposed Jacobian `J_t` of `Madgwick::update` (madgwick.rs
lines 222–230), row-major exactly as in `Matrix6::new`. -/
def Madgwick.Jt9 (q b : Quat) : Matrix (Fin 6) (Fin 6) ℝ :=
  !![-2 * q.j, 2 * q.i, 0, -2 * b.k * q.j, -2 * b.i * q.k + 2 * b.k * q.i, 2 * b.i * q.j;
     2 * q.k, 2 * q.w, -4 * q.i, 2 * b.k * q.k, 2 * b.i * q.j + 2 * b.k * q.w, 2 * b.i * q.k - 4 * b.k * q.i;
     -2 * q.w, 2 * q.k, -4 * q.j, -4 * b.i * q.j - 2 * b.k * q.w, 2 * b.i * q.i + 2 * b.k * q.k, 2 * b.i * q.w - 4 * b.k * q.j;
     2 * q.i, 2 * q.j, 0, -4 * b.i * q.k + 2 * b.k * q.i, -2 * b.i * q.w + 2 * b.k * q.j, 2 * b.i * q.i;
     0, 0, 0, 0, 0, 0;
     0, 0, 0, 0, 0, 0]

/-- The uncorrected gradient step `prod = J_t * F` of `Madgwick::update`. -/
def Madgwick.prod9 (q b : Quat) (accel mag : V3) : Fin 6 → ℝ :=
  (Madgwick.Jt9 q b).mulVec (Madgwick.F9 q b accel mag)

/-- The stabilized gradient step of `Madgwick::update`:
`step = prod.unscale(prod.norm() + delta)` (madgwick.rs lines 232–234). -/
def Madgwick.step9 (delta : ℝ) (q b : Quat) (accel mag : V3) : Fin 6 → ℝ :=
  fun t => Madgwick.prod9 q b accel mag t / (vecNorm (Madgwick.prod9 q b accel mag) + delta)

/-- The integrated (pre-normalization) quaternion `q + qDot * sample_period`
computed by `Madgwick::update` on the already-normalized measurements
(madgwick.rs lines 236–241). -/
def Madgwick.core9 (s : Madgwick) (gyroscope accel mag : V3) : Quat :=
  let q := s.quat
  let b := Madgwick.refB q mag
  let step := Madgwick.step9 s.delta q b accel mag
  let qDot := (q * Quat.fromParts 0 gyroscope).smul 0.5 -
    (Quat.mk (step 0) (step 1) (step 2) (step 3)).smul s.beta
  q + qDot.smul s.sample_period

/-- `Madgwick::update` (madgwick.rs lines 182–244).  The Rust method mutates
`self` and returns `Result<&UnitQuaternion, AhrsError>`; it is modelled as
returning the post-call state together with the optional error, the early
`return Err(..)` paths yielding the input state untouched. -/
def Madgwick.update (s : Madgwick) (gyroscope accelerometer magnetometer : V3) :
    Madgwick × Option AhrsError :=
  match accelerometer.tryNormalize 0 with
  | none => (s, some AhrsError.AccelerometerNormZero)
  | some accel =>
    match magnetometer.tryNormalize 0 with
    | none => (s, some AhrsError.MagnetometerNormZero)
    | some mag =>
      ({ s with quat := (Madgwick.core9 s gyroscope accel mag).normalize }, none)

/-- The 4-component residual `F` of `Madgwick::update_imu` (madgwick.rs
lines 265–271); its fourth component is the structural zero. -/
def Madgwick.Fimu (q : Quat) (accel : V3) : Fin 4 → ℝ :=
  ![2 * (q.i * q.k - q.w * q.j) - accel.x,
    2 * (q.w * q.i + q.j * q.k) - accel.y,
    2 * (0.5 - q.i * q.i - q.j * q.j) - accel.z,
    0]

/-- The transposed Jacobian of `Madgwick::update_imu` (madgwick.rs
lines 273–279): the 9-axis Jacobian with every `b`-dependent column
dropped. -/
def Madgwick.Jtimu (q : Quat) : Matrix (Fin 4) (Fin 4) ℝ :=
  !![-2 * q.j, 2 * q.i, 0, 0;
     2 * q.k, 2 * q.w, -4 * q.i, 0;
     -2 * q.w, 2 * q.k, -4 * q.j, 0;
     2 * q.i, 2 * q.j, 0, 0]

/-- The uncorrected gradient step `prod = J_t * F` of
`Madgwick::update_imu`. -/
def Madgwick.prodImu (q : Quat) (accel : V3) : Fin 4 → ℝ :=
  (Madgwick.Jtimu q).mulVec (Madgwick.Fimu q accel)

/-- The stabilized gradient step of `Madgwick::update_imu` (madgwick.rs
lines 281–283). -/
def Madgwick.stepImu (delta : ℝ) (q : Quat) (accel : V3) : Fin 4 → ℝ :=
  fun t => Madgwick.prodImu q accel t / (vecNorm (Madgwick.prodImu q accel) + delta)

/-- The integrated (pre-normalization) quaternion computed by
`Madgwick::update_imu` on the already-normalized accelerometer (madgwick.rs
lines 285–290). -/
def Madgwick.coreImu (s : Madgwick) (gyroscope accel : V3) : Quat :=
  let q := s.quat
  let step := Madgwick.stepImu s.delta q accel
  let qDot := (q * Quat.fromParts 0 gyroscope).smul 0.5 -
    (Quat.mk (step 0) (step 1) (step 2) (step 3)).smul s.beta
  q + qDot.smul s.sample_period

/-- `Madgwick::update_imu` (madgwick.rs lines 246–293). -/
def Madgwick.update_imu (s : Madgwick) (gyroscope accelerometer : V3) :
    Madgwick × Option AhrsError :=
  match accelerometer.tryNormalize 0 with
  | none => (s, some AhrsError.AccelerometerNormZero)
  | some accel =>
    ({ s with quat := (Madgwick.coreImu s gyroscope accel).normalize }, none)

/-- `Madgwick::update_gyro` (madgwick.rs lines 295–311): pure dead
reckoning, total. -/
def Madgwick.update_gyro (s : Madgwick) (gyroscope : V3) : Madgwick :=
  let q := s.quat
  let qDot := (q * Quat.fromParts 0 gyroscope).smul 0.5
  { s with quat := (q + qDot.smul s.sample_period).normalize }

/-- Reference direction of Earth's magnetic field, from `mahony.rs`
(`update`, lines 226–228); textually the same expression as in
`madgwick.rs`. -/
def Mahony.refB (q : Quat) (mag : V3) : Quat :=
  let h := q * (Quat.fromParts 0 mag * q.conj)
  ⟨0, Real.sqrt (h.i ^ 2 + h.j ^ 2), 0, h.k⟩

/-- The gravity direction `v` implied by the current quaternion
(`mahony.rs` lines 230–235). -/
def Mahony.gravV (q : Quat) : V3 :=
  ⟨2 * (q.i * q.k - q.w * q.j),
   2 * (q.w * q.i + q.j * q.k),
   q.w * q.w - q.i * q.i - q.j * q.j + q.k * q.k⟩

/-- The magnetic-field direction `w` implied by the current quaternion and
the reference field `b` (`mahony.rs` lines 237–242). -/
def Mahony.magW (q b : Quat) : V3 :=
  ⟨2 * b.i * (0.5 - q.j * q.j - q.k * q.k) + 2 * b.k * (q.i * q.k - q.w * q.j),
   2 * b.i * (q.i * q.j - q.w * q.k) + 2 * b.k * (q.w * q.i + q.j * q.k),
   2 * b.i * (q.w * q.j + q.i * q.k) + 2 * b.k * (0.5 - q.i * q.i - q.j * q.j)⟩

/-- The error vector `e = accel.cross(v) + mag.cross(w)` of
`Mahony::update` (mahony.rs line 244), on already-normalized
measurements. -/
def Mahony.errE9 (s : Mahony) (accel mag : V3) : V3 :=
  accel.cross (Mahony.gravV s.quat) +
    mag.cross (Mahony.magW s.quat (Mahony.refB s.quat mag))

/-- The integral accumulator after the `if self.ki > zero` block of
`Mahony::update` (mahony.rs lines 246–254): accumulate `e * sample_period`
when `ki > 0`, otherwise set every component to zero. -/
def Mahony.newEInt9 (s : Mahony) (accel mag : V3) : V3 :=
  if 0 < s.ki then s.e_int + (Mahony.errE9 s accel mag).smul s.sample_period
  else ⟨0, 0, 0⟩

/-- The integrated (pre-normalization) quaternion of `Mahony::update`
(mahony.rs lines 256–263): corrected gyro rate
`gyro + e * kp + e_int * ki` (with the freshly updated accumulator), then
`qDot = q * (0, gyro) * 0.5` and `q + qDot * sample_period`. -/
def Mahony.core9 (s : Mahony) (gyroscope accel mag : V3) : Quat :=
  let q := s.quat
  let e := Mahony.errE9 s accel mag
  let eInt := Mahony.newEInt9 s accel mag
  let gyro := gyroscope + e.smul s.kp + eInt.smul s.ki
  let qDot := (q * Quat.fromParts 0 gyro).smul 0.5
  q + qDot.smul s.sample_period

/-- `Mahony::update` (mahony.rs lines 197–266).  Both zero-norm failures
return `AhrsError::DivByZero` in this source. -/
def Mahony.update (s : Mahony) (gyroscope accelerometer magnetometer : V3) :
    Mahony × Option AhrsError :=
  match accelerometer.tryNormalize 0 with
  | none => (s, some AhrsError.DivByZero)
  | some accel =>
    match magnetometer.tryNormalize 0 with
    | none => (s, some AhrsError.DivByZero)
    | some mag =>
      ({ s with
          e_int := Mahony.newEInt9 s accel mag,
          quat := (Mahony.core9 s gyroscope accel mag).normalize }, none)

/-- The error vector `e = accel.cross(v)` of `Mahony::update_imu`
(mahony.rs line 294). -/
def Mahony.errEImu (s : Mahony) (accel : V3) : V3 :=
  accel.cross (Mahony.gravV s.quat)

/-- The integral accumulator after the `if self.ki > zero` block of
`Mahony::update_imu` (mahony.rs lines 296–303). -/
def Mahony.newEIntImu (s : Mahony) (accel : V3) : V3 :=
  if 0 < s.ki then s.e_int + (Mahony.errEImu s accel).smul s.sample_period
  else ⟨0, 0, 0⟩

/-- The integrated (pre-normalization) quaternion of `Mahony::update_imu`
(mahony.rs lines 305–312). -/
def Mahony.coreImu (s : Mahony) (gyroscope accel : V3) : Quat :=
  let q := s.quat
  let e := Mahony.errEImu s accel
  let eInt := Mahony.newEIntImu s accel
  let gyro := gyroscope + e.smul s.kp + eInt.smul s.ki
  let qDot := (q * Quat.fromParts 0 gyro).smul 0.5
  q + qDot.smul s.sample_period

/-- `Mahony::update_imu` (mahony.rs lines 268–315). -/
def Mahony.update_imu (s : Mahony) (gyroscope accelerometer : V3) :
    Mahony × Option AhrsError :=
  match accelerometer.tryNormalize 0 with
  | none => (s, some AhrsError.DivByZero)
  | some accel =>
    ({ s with
        e_int := Mahony.newEIntImu s accel,
        quat := (Mahony.coreImu s gyroscope accel).normalize }, none)

/-- `Mahony::new_with_quat` (mahony.rs lines 128–141): the accumulator is
initialized to `nalgebra::zero()`. -/
def Mahony.new_with_quat (sample_period kp ki : ℝ) (quat : Quat) : Mahony :=
  { sample_period := sample_period, kp := kp, ki := ki,
    e_int := ⟨0, 0, 0⟩, quat := quat }

/-- `Mahony::new` (mahony.rs lines 108–123): delegates to `new_with_quat`
with the identity quaternion `from_parts(1, 0)`. -/
def Mahony.new (sample_period kp ki : ℝ) : Mahony :=
  Mahony.new_with_quat sample_period kp ki (Quat.fromParts 1 ⟨0, 0, 0⟩)

/-! ## Basic facts about the shared arithmetic -/

theorem V3.norm_nonneg (v : V3) : 0 ≤ v.norm := Real.sqrt_nonneg _

theorem V3.tryNormalize_eq_none (v : V3) (h : v.norm = 0) :
    v.tryNormalize 0 = none := by
  simp [V3.tryNormalize, h]

theorem V3.tryNormalize_eq_some (v : V3) (h : 0 < v.norm) :
    v.tryNormalize 0 = some (v.smul v.norm⁻¹) := by
  simp [V3.tryNormalize, not_le.mpr h]

theorem V3.norm_eq_zero_or_pos (v : V3) : v.norm = 0 ∨ 0 < v.norm :=
  (V3.norm_nonneg v).eq_or_lt.imp Eq.symm id

theorem Quat.normSq_smul (p : Quat) (c : ℝ) :
    (p.smul c).normSq = c ^ 2 * p.normSq := by
  simp only [Quat.smul, Quat.normSq]; ring

theorem Quat.normSq_nonneg (p : Quat) : 0 ≤ p.normSq := by
  simp only [Quat.normSq]; positivity

theorem Quat.eq_zero_of_normSq_eq_zero (p : Quat) (h : p.normSq = 0) : p = 0 := by
  simp only [Quat.normSq] at h
  have hw : p.w = 0 := by nlinarith [sq_nonneg p.w, sq_nonneg p.i, sq_nonneg p.j, sq_nonneg p.k]
  have hi : p.i = 0 := by nlinarith [sq_nonneg p.w, sq_nonneg p.i, sq_nonneg p.j, sq_nonneg p.k]
  have hj : p.j = 0 := by nlinarith [sq_nonneg p.w, sq_nonneg p.i, sq_nonneg p.j, sq_nonneg p.k]
  have hk : p.k = 0 := by nlinarith [sq_nonneg p.w, sq_nonneg p.i, sq_nonneg p.j, sq_nonneg p.k]
  cases p
  simp only at hw hi hj hk
  simp [hw, hi, hj, hk]
  rfl

theorem Quat.normSq_pos_of_ne_zero (p : Quat) (h : p ≠ 0) : 0 < p.normSq :=
  (Quat.normSq_nonneg p).lt_of_ne
    (fun h0 => h (Quat.eq_zero_of_normSq_eq_zero p h0.symm))

/-- Normalizing a non-zero quaternion yields a quaternion of norm one. -/
theorem Quat.norm_normalize (p : Quat) (h : p ≠ 0) : p.normalize.norm = 1 := by
  have hpos : 0 < p.normSq := Quat.normSq_pos_of_ne_zero p h
  have hsq : p.normalize.normSq = 1 := by
    rw [Quat.normalize, Quat.normSq_smul, Quat.norm, ← Real.sqrt_inv,
      Real.sq_sqrt (by positivity), inv_mul_cancel₀ (ne_of_gt hpos)]
  rw [Quat.norm, hsq, Real.sqrt_one]

/-! ## Unfolding equations for the update operations -/

theorem Madgwick.update_eq_accel_err (s : Madgwick) (g a m : V3)
    (ha : a.tryNormalize 0 = none) :
    Madgwick.update s g a m = (s, some AhrsError.AccelerometerNormZero) := by
  unfold Madgwick.update; rw [ha]

theorem Madgwick.update_eq_mag_err (s : Madgwick) (g a m a' : V3)
    (ha : a.tryNormalize 0 = some a') (hm : m.tryNormalize 0 = none) :
    Madgwick.update s g a m = (s, some AhrsError.MagnetometerNormZero) := by
  unfold Madgwick.update; rw [ha, hm]

theorem Madgwick.update_eq_ok (s : Madgwick) (g a m a' m' : V3)
    (ha : a.tryNormalize 0 = some a') (hm : m.tryNormalize 0 = some m') :
    Madgwick.update s g a m =
      ({ s with quat := (Madgwick.core9 s g a' m').normalize }, none) := by
  unfold Madgwick.update; rw [ha, hm]

theorem Madgwick.update_imu_eq_err (s : Madgwick) (g a : V3)
    (ha : a.tryNormalize 0 = none) :
    Madgwick.update_imu s g a = (s, some AhrsError.AccelerometerNormZero) := by
  unfold Madgwick.update_imu; rw [ha]

theorem Madgwick.update_imu_eq_ok (s : Madgwick) (g a a' : V3)
    (ha : a.tryNormalize 0 = some a') :
    Madgwick.update_imu s g a =
      ({ s with quat := (Madgwick.coreImu s g a').normalize }, none) := by
  unfold Madgwick.update_imu; rw [ha]

theorem Mahony.update_accel_div_err (s : Mahony) (g a m : V3)
    (ha : a.tryNormalize 0 = none) :
    Mahony.update s g a m = (s, some AhrsError.DivByZero) := by
  unfold Mahony.update; rw [ha]

theorem Mahony.update_mag_div_err (s : Mahony) (g a m a' : V3)
    (ha : a.tryNormalize 0 = some a') (hm : m.tryNormalize 0 = none) :
    Mahony.update s g a m = (s, some AhrsError.DivByZero) := by
  unfold Mahony.update; rw [ha, hm]

theorem Mahony.update_ok_eq (s : Mahony) (g a m a' m' : V3)
    (ha : a.tryNormalize 0 = some a') (hm : m.tryNormalize 0 = some m') :
    Mahony.update s g a m =
      ({ s with
          e_int := Mahony.newEInt9 s a' m',
          quat := (Mahony.core9 s g a' m').normalize }, none) := by
  unfold Mahony.update; rw [ha, hm]

theorem Mahony.update_imu_div_err (s : Mahony) (g a : V3)
    (ha : a.tryNormalize 0 = none) :
    Mahony.update_imu s g a = (s, some AhrsError.DivByZero) := by
  unfold Mahony.update_imu; rw [ha]

theorem Mahony.update_imu_ok_eq (s : Mahony) (g a a' : V3)
    (ha : a.tryNormalize 0 = some a') :
    Mahony.update_imu s g a =
      ({ s with
          e_int := Mahony.newEIntImu s a',
          quat := (Mahony.coreImu s g a').normalize }, none) := by
  unfold Mahony.update_imu; rw [ha]

/-! ## Concrete evaluation helpers (shared by witnesses) -/

theorem Quat.add_def (p r : Quat) :
    p + r = ⟨p.w + r.w, p.i + r.i, p.j + r.j, p.k + r.k⟩ := rfl

theorem Quat.mul_def (p r : Quat) :
    p * r = ⟨p.w * r.w - p.i * r.i - p.j * r.j - p.k * r.k,
             p.w * r.i + p.i * r.w + p.j * r.k - p.k * r.j,
             p.w * r.j - p.i * r.k + p.j * r.w + p.k * r.i,
             p.w * r.k + p.i * r.j - p.j * r.i + p.k * r.w⟩ := rfl

theorem Quat.zero_def : (0 : Quat) = ⟨0, 0, 0, 0⟩ := rfl

theorem V3.add_val (a b : V3) : a + b = ⟨a.x + b.x, a.y + b.y, a.z + b.z⟩ := rfl

theorem V3.zero_val : (0 : V3) = ⟨0, 0, 0⟩ := rfl

theorem V3.norm_zeroVec : (⟨0, 0, 0⟩ : V3).norm = 0 := by
  rw [V3.norm, V3.normSq]; norm_num [Real.sqrt_zero]

theorem V3.norm_unitZ : (⟨0, 0, 1⟩ : V3).norm = 1 := by
  rw [V3.norm, V3.normSq]; norm_num [Real.sqrt_one]

theorem V3.norm_unitX : (⟨1, 0, 0⟩ : V3).norm = 1 := by
  rw [V3.norm, V3.normSq]; norm_num [Real.sqrt_one]

theorem V3.tryNormalize_zeroVec : (⟨0, 0, 0⟩ : V3).tryNormalize 0 = none :=
  V3.tryNormalize_eq_none _ V3.norm_zeroVec

theorem V3.tryNormalize_unitZ : (⟨0, 0, 1⟩ : V3).tryNormalize 0 = some ⟨0, 0, 1⟩ := by
  rw [V3.tryNormalize_eq_some _ (by rw [V3.norm_unitZ]; norm_num), V3.norm_unitZ]
  norm_num [V3.smul]

theorem V3.tryNormalize_unitX : (⟨1, 0, 0⟩ : V3).tryNormalize 0 = some ⟨1, 0, 0⟩ := by
  rw [V3.tryNormalize_eq_some _ (by rw [V3.norm_unitX]; norm_num), V3.norm_unitX]
  norm_num [V3.smul]

/-! ## The claims -/

/-- Claim C7: the reference magnetic direction `b` computed inside
`Mahony::update` is extensionally the same function of the current
quaternion and the normalized magnetometer vector as the one computed inside
`Madgwick::update`: both evaluate `h = q * ((0, mag) * conj(q))` and
`b = (0, norm((h[0], h[1])), 0, h[2])`. -/
theorem c7_refB_agree : ∀ (q : Quat) (mag : V3),
    Madgwick.refB q mag = Mahony.refB q mag := fun _ _ => rfl

/-- Claim C8: `Madgwick::update_gyro` is total (it is a plain function into
`Madgwick`, with no error case), applies no correction term — the stored
quaternion becomes `normalize(q + (0.5 * q * (0, gyro)) * sample_period)` —
and its result does not depend on `beta` or `delta`. -/
theorem c8_update_gyro_formula : ∀ (s : Madgwick) (g : V3),
    (Madgwick.update_gyro s g).quat =
      (s.quat + ((s.quat * Quat.fromParts 0 g).smul 0.5).smul s.sample_period).normalize ∧
    ∀ beta' delta' : ℝ,
      (Madgwick.update_gyro ⟨s.sample_period, beta', delta', s.quat⟩ g).quat =
        (Madgwick.update_gyro s g).quat :=
  fun _ _ => ⟨rfl, fun _ _ => rfl⟩

/-- Claim C9: for every positive `delta` the divisor
`norm(J_t * F) + delta` used to normalize the gradient step in
`Madgwick::update` and `Madgwick::update_imu` is strictly positive (a norm
is non-negative), so the step normalization never divides by zero. -/
theorem c9_step_divisor_pos : ∀ (d : ℝ) (q b : Quat) (accel mag : V3), 0 < d →
    0 < vecNorm (Madgwick.prod9 q b accel mag) + d ∧
    0 < vecNorm (Madgwick.prodImu q accel) + d := by
  intro d q b accel mag hd
  exact ⟨add_pos_of_nonneg_of_pos (Real.sqrt_nonneg _) hd,
    add_pos_of_nonneg_of_pos (Real.sqrt_nonneg _) hd⟩

/-- Witness for C9 at `delta = 1` and concrete state/input. -/
theorem c9_witness : (0 : ℝ) < 1 ∧
    (0 < vecNorm (Madgwick.prod9 ⟨1, 0, 0, 0⟩ ⟨0, 1, 0, 1⟩ ⟨0, 0, 1⟩ ⟨1, 0, 0⟩) + 1 ∧
      0 < vecNorm (Madgwick.prodImu ⟨1, 0, 0, 0⟩ ⟨0, 0, 1⟩) + 1) :=
  ⟨by norm_num,
    c9_step_divisor_pos 1 ⟨1, 0, 0, 0⟩ ⟨0, 1, 0, 1⟩ ⟨0, 0, 1⟩ ⟨1, 0, 0⟩ (by norm_num)⟩

/-- Claim C10: both Mahony constructors initialize the integral accumulator
`e_int` to the zero vector, for every sample period, gain pair and initial
quaternion. -/
theorem c10_e_int_init_zero : ∀ (sp kp ki : ℝ) (q : Quat),
    (Mahony.new sp kp ki).e_int = ⟨0, 0, 0⟩ ∧
    (Mahony.new_with_quat sp kp ki q).e_int = ⟨0, 0, 0⟩ :=
  fun _ _ _ _ => ⟨rfl, rfl⟩

/-- Claim C3: whenever `update` or `update_imu` of either filter returns an
error, the returned (post-call) filter state is exactly the pre-call state —
every error return happens before any state mutation. -/
theorem c3_error_state_unchanged :
    (∀ (s : Madgwick) (g a m : V3), (Madgwick.update s g a m).2 ≠ none →
      (Madgwick.update s g a m).1 = s) ∧
    (∀ (s : Madgwick) (g a : V3), (Madgwick.update_imu s g a).2 ≠ none →
      (Madgwick.update_imu s g a).1 = s) ∧
    (∀ (s : Mahony) (g a m : V3), (Mahony.update s g a m).2 ≠ none →
      (Mahony.update s g a m).1 = s) ∧
    (∀ (s : Mahony) (g a : V3), (Mahony.update_imu s g a).2 ≠ none →
      (Mahony.update_imu s g a).1 = s) := by
  refine ⟨?_, ?_, ?_, ?_⟩
  · intro s g a m h
    cases ha : a.tryNormalize 0 with
    | none => rw [Madgwick.update_eq_accel_err s g a m ha]
    | some a' =>
      cases hm : m.tryNormalize 0 with
      | none => rw [Madgwick.update_eq_mag_err s g a m a' ha hm]
      | some m' => exact absurd (by rw [Madgwick.update_eq_ok s g a m a' m' ha hm]) h
  · intro s g a h
    cases ha : a.tryNormalize 0 with
    | none => rw [Madgwick.update_imu_eq_err s g a ha]
    | some a' => exact absurd (by rw [Madgwick.update_imu_eq_ok s g a a' ha]) h
  · intro s g a m h
    cases ha : a.tryNormalize 0 with
    | none => rw [Mahony.update_accel_div_err s g a m ha]
    | some a' =>
      cases hm : m.tryNormalize 0 with
      | none => rw [Mahony.update_mag_div_err s g a m a' ha hm]
      | some m' => exact absurd (by rw [Mahony.update_ok_eq s g a m a' m' ha hm]) h
  · intro s g a h
    cases ha : a.tryNormalize 0 with
    | none => rw [Mahony.update_imu_div_err s g a ha]
    | some a' => exact absurd (by rw [Mahony.update_imu_ok_eq s g a a' ha]) h

/-- Witness for C3: a failed Madgwick update (zero accelerometer) returns
the input state unchanged. -/
theorem c3_witness :
    (Madgwick.update ⟨1, 1, 1, ⟨1, 0, 0, 0⟩⟩ ⟨0, 0, 0⟩ ⟨0, 0, 0⟩ ⟨1, 0, 0⟩).2 ≠ none ∧
    (Madgwick.update ⟨1, 1, 1, ⟨1, 0, 0, 0⟩⟩ ⟨0, 0, 0⟩ ⟨0, 0, 0⟩ ⟨1, 0, 0⟩).1 =
      ⟨1, 1, 1, ⟨1, 0, 0, 0⟩⟩ := by
  have h : (Madgwick.update ⟨1, 1, 1, ⟨1, 0, 0, 0⟩⟩ ⟨0, 0, 0⟩ ⟨0, 0, 0⟩ ⟨1, 0, 0⟩).2 ≠ none := by
    rw [Madgwick.update_eq_accel_err _ _ _ _ V3.tryNormalize_zeroVec]
    simp
  exact ⟨h, c3_error_state_unchanged.1 _ _ _ _ h⟩

/-- Claim C6: on every successful `Mahony::update` / `Mahony::update_imu`,
the integral accumulator becomes its previous value plus `e * sample_period`
when `ki > 0`, and is reset to the zero vector otherwise, regardless of its
previous value. -/
theorem c6_e_int_transition :
    (∀ (s : Mahony) (g a m a' m' : V3),
      a.tryNormalize 0 = some a' → m.tryNormalize 0 = some m' →
      (Mahony.update s g a m).1.e_int =
        if 0 < s.ki then s.e_int + (Mahony.errE9 s a' m').smul s.sample_period
        else ⟨0, 0, 0⟩) ∧
    (∀ (s : Mahony) (g a a' : V3),
      a.tryNormalize 0 = some a' →
      (Mahony.update_imu s g a).1.e_int =
        if 0 < s.ki then s.e_int + (Mahony.errEImu s a').smul s.sample_period
        else ⟨0, 0, 0⟩) := by
  constructor
  · intro s g a m a' m' ha hm
    rw [Mahony.update_ok_eq s g a m a' m' ha hm]
    rfl
  · intro s g a a' ha
    rw [Mahony.update_imu_ok_eq s g a a' ha]
    rfl

/-- Witness for C6 at a concrete state with `ki = 0`. -/
theorem c6_witness :
    ((⟨0, 0, 1⟩ : V3).tryNormalize 0 = some ⟨0, 0, 1⟩) ∧
    ((⟨1, 0, 0⟩ : V3).tryNormalize 0 = some ⟨1, 0, 0⟩) ∧
    (Mahony.update ⟨1, 1, 0, ⟨5, 5, 5⟩, ⟨1, 0, 0, 0⟩⟩ ⟨0, 0, 0⟩ ⟨0, 0, 1⟩ ⟨1, 0, 0⟩).1.e_int =
      (if (0 : ℝ) < 0 then
        (⟨5, 5, 5⟩ : V3) +
          (Mahony.errE9 ⟨1, 1, 0, ⟨5, 5, 5⟩, ⟨1, 0, 0, 0⟩⟩ ⟨0, 0, 1⟩ ⟨1, 0, 0⟩).smul 1
      else ⟨0, 0, 0⟩) :=
  ⟨V3.tryNormalize_unitZ, V3.tryNormalize_unitX,
    c6_e_int_transition.1 ⟨1, 1, 0, ⟨5, 5, 5⟩, ⟨1, 0, 0, 0⟩⟩ ⟨0, 0, 0⟩ _ _ _ _
      V3.tryNormalize_unitZ V3.tryNormalize_unitX⟩

/-- Claim C1, counterexample: `Mahony::update` with a zero-norm
accelerometer returns `DivByZero`, not the `AccelerometerNormZero` variant
the claim names. -/
theorem c1_counterexample :
    (Mahony.update ⟨1, 1, 0, ⟨0, 0, 0⟩, ⟨1, 0, 0, 0⟩⟩ ⟨0, 0, 0⟩ ⟨0, 0, 0⟩ ⟨1, 0, 0⟩).2 =
      some AhrsError.DivByZero ∧
    AhrsError.DivByZero ≠ AhrsError.AccelerometerNormZero := by
  constructor
  · rw [Mahony.update_accel_div_err _ _ _ _ V3.tryNormalize_zeroVec]
  · decide

/-- Claim C1 (amended): both filter `update`s fail exactly when a required
reference vector has zero norm and succeed whenever both norms are strictly
positive; `Madgwick::update` reports the failures with the named variants
`AccelerometerNormZero` / `MagnetometerNormZero`, while `Mahony::update`
reports both failures as `DivByZero`. -/
theorem c1_update_error_modes :
    (∀ (s : Madgwick) (g a m : V3),
      (a.norm = 0 →
        (Madgwick.update s g a m).2 = some AhrsError.AccelerometerNormZero) ∧
      (0 < a.norm → m.norm = 0 →
        (Madgwick.update s g a m).2 = some AhrsError.MagnetometerNormZero) ∧
      (0 < a.norm → 0 < m.norm → (Madgwick.update s g a m).2 = none)) ∧
    (∀ (s : Mahony) (g a m : V3),
      (a.norm = 0 → (Mahony.update s g a m).2 = some AhrsError.DivByZero) ∧
      (0 < a.norm → m.norm = 0 →
        (Mahony.update s g a m).2 = some AhrsError.DivByZero) ∧
      (0 < a.norm → 0 < m.norm → (Mahony.update s g a m).2 = none)) := by
  constructor
  · intro s g a m
    refine ⟨fun h0 => ?_, fun ha hm => ?_, fun ha hm => ?_⟩
    · rw [Madgwick.update_eq_accel_err s g a m (V3.tryNormalize_eq_none a h0)]
    · rw [Madgwick.update_eq_mag_err s g a m _ (V3.tryNormalize_eq_some a ha)
        (V3.tryNormalize_eq_none m hm)]
    · rw [Madgwick.update_eq_ok s g a m _ _ (V3.tryNormalize_eq_some a ha)
        (V3.tryNormalize_eq_some m hm)]
  · intro s g a m
    refine ⟨fun h0 => ?_, fun ha hm => ?_, fun ha hm => ?_⟩
    · rw [Mahony.update_accel_div_err s g a m (V3.tryNormalize_eq_none a h0)]
    · rw [Mahony.update_mag_div_err s g a m _ (V3.tryNormalize_eq_some a ha)
        (V3.tryNormalize_eq_none m hm)]
    · rw [Mahony.update_ok_eq s g a m _ _ (V3.tryNormalize_eq_some a ha)
        (V3.tryNormalize_eq_some m hm)]

/-- Witness for C1 covering all six cases at concrete inputs. -/
theorem c1_witness :
    (V3.norm ⟨0, 0, 0⟩ = 0 ∧ 0 < V3.norm ⟨0, 0, 1⟩ ∧ 0 < V3.norm ⟨1, 0, 0⟩) ∧
    (Madgwick.update ⟨1, 1, 1, ⟨1, 0, 0, 0⟩⟩ ⟨0, 0, 0⟩ ⟨0, 0, 0⟩ ⟨1, 0, 0⟩).2 =
      some AhrsError.AccelerometerNormZero ∧
    (Madgwick.update ⟨1, 1, 1, ⟨1, 0, 0, 0⟩⟩ ⟨0, 0, 0⟩ ⟨0, 0, 1⟩ ⟨0, 0, 0⟩).2 =
      some AhrsError.MagnetometerNormZero ∧
    (Madgwick.update ⟨1, 1, 1, ⟨1, 0, 0, 0⟩⟩ ⟨0, 0, 0⟩ ⟨0, 0, 1⟩ ⟨1, 0, 0⟩).2 = none ∧
    (Mahony.update ⟨1, 1, 0, ⟨0, 0, 0⟩, ⟨1, 0, 0, 0⟩⟩ ⟨0, 0, 0⟩ ⟨0, 0, 0⟩ ⟨1, 0, 0⟩).2 =
      some AhrsError.DivByZero ∧
    (Mahony.update ⟨1, 1, 0, ⟨0, 0, 0⟩, ⟨1, 0, 0, 0⟩⟩ ⟨0, 0, 0⟩ ⟨0, 0, 1⟩ ⟨0, 0, 0⟩).2 =
      some AhrsError.DivByZero ∧
    (Mahony.update ⟨1, 1, 0, ⟨0, 0, 0⟩, ⟨1, 0, 0, 0⟩⟩ ⟨0, 0, 0⟩ ⟨0, 0, 1⟩ ⟨1, 0, 0⟩).2 =
      none := by
  have h0 : V3.norm ⟨0, 0, 0⟩ = 0 := V3.norm_zeroVec
  have hz : 0 < V3.norm ⟨0, 0, 1⟩ := by rw [V3.norm_unitZ]; norm_num
  have hx : 0 < V3.norm ⟨1, 0, 0⟩ := by rw [V3.norm_unitX]; norm_num
  exact ⟨⟨h0, hz, hx⟩,
    (c1_update_error_modes.1 _ _ _ _).1 h0,
    (c1_update_error_modes.1 _ _ _ _).2.1 hz h0,
    (c1_update_error_modes.1 _ _ _ _).2.2 hz hx,
    (c1_update_error_modes.2 _ _ _ _).1 h0,
    (c1_update_error_modes.2 _ _ _ _).2.1 hz h0,
    (c1_update_error_modes.2 _ _ _ _).2.2 hz hx⟩

/-- Claim C2, counterexample: the Mahony state quaternion is a plain
quaternion (settable through `new_with_quat` or the public field); from the
zero quaternion a call to `update_imu` with a valid accelerometer succeeds,
yet the stored quaternion is the normalization of the zero quaternion, whose
norm is not 1. -/
theorem c2_counterexample :
    (Mahony.update_imu ⟨1, 1, 0, ⟨0, 0, 0⟩, ⟨0, 0, 0, 0⟩⟩ ⟨0, 0, 0⟩ ⟨0, 0, 1⟩).2 = none ∧
    Quat.norm
      (Mahony.update_imu ⟨1, 1, 0, ⟨0, 0, 0⟩, ⟨0, 0, 0, 0⟩⟩ ⟨0, 0, 0⟩ ⟨0, 0, 1⟩).1.quat ≠ 1 := by
  rw [Mahony.update_imu_ok_eq _ _ _ _ V3.tryNormalize_unitZ]
  refine ⟨rfl, ?_⟩
  have hcore : Mahony.coreImu ⟨1, 1, 0, ⟨0, 0, 0⟩, ⟨0, 0, 0, 0⟩⟩ ⟨0, 0, 0⟩ ⟨0, 0, 1⟩ =
      ⟨0, 0, 0, 0⟩ := by
    norm_num [Mahony.coreImu, Mahony.errEImu, Mahony.newEIntImu, Mahony.gravV,
      V3.cross, V3.smul, V3.add_val, Quat.mul_def, Quat.add_def, Quat.smul,
      Quat.fromParts]
  have hnorm : Quat.norm (Quat.normalize ⟨0, 0, 0, 0⟩) = 0 := by
    norm_num [Quat.normalize, Quat.smul, Quat.norm, Quat.normSq, Real.sqrt_zero]
  simp only [hcore, hnorm]
  norm_num

/-- Claim C2 (amended): for every state and valid input whose integrated
(pre-normalization) quaternion `q + qDot * sample_period` is non-zero, the
quaternion stored and returned by a successful `update` / `update_imu` of
either filter has norm exactly 1: both filters re-normalize the integrated
quaternion before storing it. -/
theorem c2_unit_norm :
    (∀ (s : Madgwick) (g a m a' m' : V3),
      a.tryNormalize 0 = some a' → m.tryNormalize 0 = some m' →
      Madgwick.core9 s g a' m' ≠ 0 →
      (Madgwick.update s g a m).2 = none ∧
        Quat.norm (Madgwick.update s g a m).1.quat = 1) ∧
    (∀ (s : Madgwick) (g a a' : V3),
      a.tryNormalize 0 = some a' →
      Madgwick.coreImu s g a' ≠ 0 →
      (Madgwick.update_imu s g a).2 = none ∧
        Quat.norm (Madgwick.update_imu s g a).1.quat = 1) ∧
    (∀ (s : Mahony) (g a m a' m' : V3),
      a.tryNormalize 0 = some a' → m.tryNormalize 0 = some m' →
      Mahony.core9 s g a' m' ≠ 0 →
      (Mahony.update s g a m).2 = none ∧
        Quat.norm (Mahony.update s g a m).1.quat = 1) ∧
    (∀ (s : Mahony) (g a a' : V3),
      a.tryNormalize 0 = some a' →
      Mahony.coreImu s g a' ≠ 0 →
      (Mahony.update_imu s g a).2 = none ∧
        Quat.norm (Mahony.update_imu s g a).1.quat = 1) := by
  refine ⟨?_, ?_, ?_, ?_⟩
  · intro s g a m a' m' ha hm hc
    rw [Madgwick.update_eq_ok s g a m a' m' ha hm]
    exact ⟨rfl, Quat.norm_normalize _ hc⟩
  · intro s g a a' ha hc
    rw [Madgwick.update_imu_eq_ok s g a a' ha]
    exact ⟨rfl, Quat.norm_normalize _ hc⟩
  · intro s g a m a' m' ha hm hc
    rw [Mahony.update_ok_eq s g a m a' m' ha hm]
    exact ⟨rfl, Quat.norm_normalize _ hc⟩
  · intro s g a a' ha hc
    rw [Mahony.update_imu_ok_eq s g a a' ha]
    exact ⟨rfl, Quat.norm_normalize _ hc⟩

/-- Witness for C2 at a concrete Madgwick state with `sample_period = 0`. -/
theorem c2_witness :
    ((⟨0, 0, 1⟩ : V3).tryNormalize 0 = some ⟨0, 0, 1⟩) ∧
    Madgwick.coreImu ⟨0, 1, 1, ⟨1, 0, 0, 0⟩⟩ ⟨0, 0, 0⟩ ⟨0, 0, 1⟩ ≠ 0 ∧
    ((Madgwick.update_imu ⟨0, 1, 1, ⟨1, 0, 0, 0⟩⟩ ⟨0, 0, 0⟩ ⟨0, 0, 1⟩).2 = none ∧
      Quat.norm (Madgwick.update_imu ⟨0, 1, 1, ⟨1, 0, 0, 0⟩⟩ ⟨0, 0, 0⟩ ⟨0, 0, 1⟩).1.quat = 1) := by
  have h2 : Madgwick.coreImu ⟨0, 1, 1, ⟨1, 0, 0, 0⟩⟩ ⟨0, 0, 0⟩ ⟨0, 0, 1⟩ ≠ 0 := by
    have hc : Madgwick.coreImu ⟨0, 1, 1, ⟨1, 0, 0, 0⟩⟩ ⟨0, 0, 0⟩ ⟨0, 0, 1⟩ = ⟨1, 0, 0, 0⟩ := by
      norm_num [Madgwick.coreImu, Quat.add_def, Quat.smul]
    rw [hc]
    exact fun h => one_ne_zero (congrArg Quat.w h)
  exact ⟨V3.tryNormalize_unitZ, h2,
    c2_unit_norm.2.1 ⟨0, 1, 1, ⟨1, 0, 0, 0⟩⟩ ⟨0, 0, 0⟩ _ _ V3.tryNormalize_unitZ h2⟩

/-- Claim C4: on a successful `Madgwick::update_imu` the stored quaternion
is `normalize(q + qDot * sample_period)` with
`qDot = 0.5 * (q * (0, gyro)) - beta * step`, where
`step = (J_t * F) / (norm(J_t * F) + delta)`, `F` is the 4-component
residual of `Madgwick.Fimu` whose fourth component is a structural zero, and
`J_t` is the closed-form Jacobian transpose `Madgwick.Jtimu` (which takes no
`b` argument: all `b`-dependent terms are dropped). -/
theorem c4_update_imu_formula :
    ∀ (s : Madgwick) (g a a' : V3), a.tryNormalize 0 = some a' →
      (Madgwick.update_imu s g a).2 = none ∧
      (Madgwick.update_imu s g a).1.quat =
        (s.quat +
          ((s.quat * Quat.fromParts 0 g).smul 0.5 -
            (Quat.mk (Madgwick.stepImu s.delta s.quat a' 0)
              (Madgwick.stepImu s.delta s.quat a' 1)
              (Madgwick.stepImu s.delta s.quat a' 2)
              (Madgwick.stepImu s.delta s.quat a' 3)).smul s.beta).smul
            s.sample_period).normalize ∧
      (∀ t, Madgwick.stepImu s.delta s.quat a' t =
        (Madgwick.Jtimu s.quat).mulVec (Madgwick.Fimu s.quat a') t /
          (vecNorm ((Madgwick.Jtimu s.quat).mulVec (Madgwick.Fimu s.quat a')) + s.delta)) ∧
      Madgwick.Fimu s.quat a' 3 = 0 := by
  intro s g a a' ha
  rw [Madgwick.update_imu_eq_ok s g a a' ha]
  exact ⟨rfl, rfl, fun t => rfl, rfl⟩

/-- Witness for C4 at a concrete state and input. -/
theorem c4_witness :
    ((⟨0, 0, 1⟩ : V3).tryNormalize 0 = some ⟨0, 0, 1⟩) ∧
    ((Madgwick.update_imu ⟨1, 1, 1, ⟨1, 0, 0, 0⟩⟩ ⟨0, 0, 0⟩ ⟨0, 0, 1⟩).2 = none ∧
      (Madgwick.update_imu ⟨1, 1, 1, ⟨1, 0, 0, 0⟩⟩ ⟨0, 0, 0⟩ ⟨0, 0, 1⟩).1.quat =
        ((⟨1, 0, 0, 0⟩ : Quat) +
          (((⟨1, 0, 0, 0⟩ : Quat) * Quat.fromParts 0 ⟨0, 0, 0⟩).smul 0.5 -
            (Quat.mk (Madgwick.stepImu 1 ⟨1, 0, 0, 0⟩ ⟨0, 0, 1⟩ 0)
              (Madgwick.stepImu 1 ⟨1, 0, 0, 0⟩ ⟨0, 0, 1⟩ 1)
              (Madgwick.stepImu 1 ⟨1, 0, 0, 0⟩ ⟨0, 0, 1⟩ 2)
              (Madgwick.stepImu 1 ⟨1, 0, 0, 0⟩ ⟨0, 0, 1⟩ 3)).smul 1).smul
            1).normalize ∧
      (∀ t, Madgwick.stepImu 1 ⟨1, 0, 0, 0⟩ ⟨0, 0, 1⟩ t =
        (Madgwick.Jtimu ⟨1, 0, 0, 0⟩).mulVec (Madgwick.Fimu ⟨1, 0, 0, 0⟩ ⟨0, 0, 1⟩) t /
          (vecNorm ((Madgwick.Jtimu ⟨1, 0, 0, 0⟩).mulVec
            (Madgwick.Fimu ⟨1, 0, 0, 0⟩ ⟨0, 0, 1⟩)) + 1)) ∧
      Madgwick.Fimu ⟨1, 0, 0, 0⟩ ⟨0, 0, 1⟩ 3 = 0) :=
  ⟨V3.tryNormalize_unitZ,
    c4_update_imu_formula ⟨1, 1, 1, ⟨1, 0, 0, 0⟩⟩ ⟨0, 0, 0⟩ ⟨0, 0, 1⟩ ⟨0, 0, 1⟩
      V3.tryNormalize_unitZ⟩

/-- Claim C5: a successful `Mahony::update` computes the error vector
`e = cross(normalized accel, v) + cross(normalized mag, w)` — `v` the
gravity direction and `w` the magnetic direction implied by the current
quaternion — and feeds the corrected rate
`gyro + kp * e + ki * e_int` (with `e_int` the accumulator value as updated
this same call) into the quaternion rate of change
`0.5 * q * (0, corrected gyro)` before integrating. -/
theorem c5_update_formula :
    ∀ (s : Mahony) (g a m a' m' : V3),
      a.tryNormalize 0 = some a' → m.tryNormalize 0 = some m' →
      (Mahony.update s g a m).2 = none ∧
      (Mahony.update s g a m).1.quat =
        (s.quat +
          ((s.quat * Quat.fromParts 0
            (g + (a'.cross (Mahony.gravV s.quat) +
                m'.cross (Mahony.magW s.quat (Mahony.refB s.quat m'))).smul s.kp +
              ((Mahony.update s g a m).1.e_int).smul s.ki)).smul 0.5).smul
            s.sample_period).normalize := by
  intro s g a m a' m' ha hm
  rw [Mahony.update_ok_eq s g a m a' m' ha hm]
  exact ⟨rfl, rfl⟩

/-- Witness for C5 at a concrete state and input. -/
theorem c5_witness :
    ((⟨0, 0, 1⟩ : V3).tryNormalize 0 = some ⟨0, 0, 1⟩) ∧
    ((⟨1, 0, 0⟩ : V3).tryNormalize 0 = some ⟨1, 0, 0⟩) ∧
    ((Mahony.update ⟨1, 1, 0, ⟨0, 0, 0⟩, ⟨1, 0, 0, 0⟩⟩ ⟨0, 0, 0⟩ ⟨0, 0, 1⟩ ⟨1, 0, 0⟩).2 = none ∧
      (Mahony.update ⟨1, 1, 0, ⟨0, 0, 0⟩, ⟨1, 0, 0, 0⟩⟩ ⟨0, 0, 0⟩ ⟨0, 0, 1⟩ ⟨1, 0, 0⟩).1.quat =
        ((⟨1, 0, 0, 0⟩ : Quat) +
          (((⟨1, 0, 0, 0⟩ : Quat) * Quat.fromParts 0
            ((⟨0, 0, 0⟩ : V3) + ((⟨0, 0, 1⟩ : V3).cross (Mahony.gravV ⟨1, 0, 0, 0⟩) +
                (⟨1, 0, 0⟩ : V3).cross
                  (Mahony.magW ⟨1, 0, 0, 0⟩ (Mahony.refB ⟨1, 0, 0, 0⟩ ⟨1, 0, 0⟩))).smul 1 +
              ((Mahony.update ⟨1, 1, 0, ⟨0, 0, 0⟩, ⟨1, 0, 0, 0⟩⟩ ⟨0, 0, 0⟩ ⟨0, 0, 1⟩
                ⟨1, 0, 0⟩).1.e_int).smul 0)).smul 0.5).smul
            1).normalize) :=
  ⟨V3.tryNormalize_unitZ, V3.tryNormalize_unitX,
    c5_update_formula ⟨1, 1, 0, ⟨0, 0, 0⟩, ⟨1, 0, 0, 0⟩⟩ ⟨0, 0, 0⟩ ⟨0, 0, 1⟩ ⟨1, 0, 0⟩
      ⟨0, 0, 1⟩ ⟨1, 0, 0⟩ V3.tryNormalize_unitZ V3.tryNormalize_unitX⟩
